import Mathlib

/-!
A shallow embedding of the scene-extraction logic of `src/App.tsx`
(the second `App` component, whose `extractPromptsFromText`,
`getCombinedPrompt` and `openInGrok` are the functions under study).

Strings are modelled as `List Char` (JavaScript strings are UTF-16 unit
sequences; for the inputs considered here the two views coincide).
JavaScript's `\s` character class and `String.prototype.trim` are modelled
by the ASCII whitespace characters space, tab, newline, carriage return,
vertical tab and form feed.  JSON numbers are modelled as exact rationals
(`Rat`); JavaScript's binary floating point rounding is not modelled, which
is irrelevant to the integer-valued fields exercised here.
`Math.random().toString(36).substr(2, 9)` is modelled by an external
generator parameter `gen : Nat → List Char` consulted at each record
creation, reflecting that ids come from a source outside the extraction
logic proper.
-/

namespace PromptFlow

def s2l (s : String) : List Char := s.data

def isWs (c : Char) : Bool :=
  c = ' ' ∨ c = '\t' ∨ c = '\n' ∨ c = '\r' ∨ c = Char.ofNat 11 ∨ c = Char.ofNat 12

def isDigitCh (c : Char) : Bool := '0' ≤ c ∧ c ≤ '9'

def toLow (c : Char) : Char :=
  if 'A' ≤ c ∧ c ≤ 'Z' then Char.ofNat (c.toNat + 32) else c

/-- Case-insensitive "starts with": `pat` is given already lower-cased. -/
def ciStarts (pat s : List Char) : Bool :=
  (s.take pat.length).map toLow = pat

/-- `String.prototype.trim`. -/
def trimChars (s : List Char) : List Char :=
  ((s.dropWhile isWs).reverse.dropWhile isWs).reverse

def natDigit (n : Nat) : Char := Char.ofNat (48 + n % 10)

def natToStringAux : Nat → Nat → List Char
  | 0, _ => []
  | f + 1, n => if n < 10 then [natDigit n] else natToStringAux f (n / 10) ++ [natDigit (n % 10)]

/-- `Number.prototype.toString` for natural numbers. -/
def natToString (n : Nat) : List Char := natToStringAux (n + 1) n

def intToString (i : Int) : List Char :=
  if i < 0 then '-' :: natToString i.natAbs else natToString i.natAbs

/-- Digits after the decimal point of `num / den` (with `num < den`),
emitted by long division until the remainder vanishes or fuel runs out. -/
def fracDigits : Nat → Nat → Nat → List Char
  | 0, _, _ => []
  | f + 1, num, den =>
    if num = 0 then []
    else natDigit (num * 10 / den) :: fracDigits f (num * 10 % den) den

/-- Decimal rendering of a rational, used for `Number.prototype.toString`. -/
def ratToString (q : Rat) : List Char :=
  let sign : List Char := if q < 0 then ['-'] else []
  let n := q.num.natAbs
  let d := q.den
  sign ++ natToString (n / d) ++ (if n % d = 0 then [] else '.' :: fracDigits 64 (n % d) d)

/-- JSON values as produced by `JSON.parse`. -/
inductive Json where
  | null : Json
  | bool (b : Bool) : Json
  | num (q : Rat) : Json
  | str (s : List Char) : Json
  | arr (xs : List Json) : Json
  | obj (fields : List (List Char × Json)) : Json

/-- Property lookup on a JavaScript object literal: a later duplicate key
overwrites an earlier one, so the last binding wins. -/
def jGet (fields : List (List Char × Json)) (key : List Char) : Option Json :=
  fields.foldl (fun acc kv => if kv.1 = key then some kv.2 else acc) none

/-- `value.key` property access where `none` stands for `undefined`.
(Access on `null` throws; callers guard that case explicitly.) -/
def jGetOpt : Json → List Char → Option Json
  | .obj f, k => jGet f k
  | _, _ => none

/-- JavaScript truthiness of a JSON value. -/
def jsTruthy : Json → Bool
  | .null => false
  | .bool b => b
  | .num q => decide (q ≠ 0)
  | .str s => decide (s ≠ [])
  | .arr _ => true
  | .obj _ => true

mutual

/-- `String(v)` / `v.toString()` coercion of a JSON value. -/
def jsCoerceString : Json → List Char
  | .null => s2l "null"
  | .bool true => s2l "true"
  | .bool false => s2l "false"
  | .num q => ratToString q
  | .str s => s
  | .arr xs => commaJoin xs
  | .obj _ => s2l "[object Object]"

/-- `Array.prototype.join(',')`: `null` elements render as empty. -/
def commaJoin : List Json → List Char
  | [] => []
  | [x] => match x with
    | .null => []
    | j => jsCoerceString j
  | x :: y :: xs =>
    (match x with
      | .null => []
      | j => jsCoerceString j) ++ ',' :: commaJoin (y :: xs)

end

/-- Value of a numeric digit string. -/
def digitsVal (s : List Char) : Nat :=
  s.foldl (fun acc c => acc * 10 + (c.toNat - 48)) 0

/-- `Number(string)` coercion ( `""` is 0, garbage is NaN = `none`;
the `Infinity` and hex forms, unreachable here, are not modelled). -/
def strToNumber (s : List Char) : Option Rat :=
  let t := trimChars s
  if t = [] then some 0
  else
    let (sgn, r1) : Rat × List Char :=
      match t with
      | '-' :: r => (-1, r)
      | '+' :: r => (1, r)
      | _ => (1, t)
    let ip := r1.takeWhile isDigitCh
    let r2 := r1.drop ip.length
    let (fp, r3) : List Char × List Char :=
      match r2 with
      | '.' :: rr => (rr.takeWhile isDigitCh, rr.drop (rr.takeWhile isDigitCh).length)
      | _ => ([], r2)
    if ip = [] ∧ fp = [] then none
    else
      match r3 with
      | [] => some (sgn * ((digitsVal ip : Rat) + (digitsVal fp : Rat) / ((10 : Rat) ^ fp.length)))
      | c :: rr =>
        if c = 'e' ∨ c = 'E' then
          let (esgn, rr2) : Bool × List Char :=
            match rr with
            | '-' :: r => (true, r)
            | '+' :: r => (false, r)
            | _ => (false, rr)
          let ed := rr2.takeWhile isDigitCh
          if ed = [] ∨ rr2.drop ed.length ≠ [] then none
          else
            let base := sgn * ((digitsVal ip : Rat) + (digitsVal fp : Rat) / ((10 : Rat) ^ fp.length))
            some (if esgn then base / ((10 : Rat) ^ digitsVal ed) else base * ((10 : Rat) ^ digitsVal ed))
        else none

/-- `ToNumber` on a JSON value (for relational comparison against a number). -/
def jsNumCoerce : Json → Option Rat
  | .null => some 0
  | .bool b => some (if b then 1 else 0)
  | .num q => some q
  | .str s => strToNumber s
  | .arr xs => strToNumber (commaJoin xs)
  | .obj _ => strToNumber (s2l "[object Object]")

/-- The `.length` property of a JSON value (`none` = `undefined`):
string/array lengths, or an object's own `length` field. -/
def jsLengthProp : Json → Option Json
  | .str s => some (.num (s.length : Rat))
  | .arr xs => some (.num (xs.length : Rat))
  | .obj f => jGet f (s2l "length")
  | _ => none

/-- `x > n` where `x` may be `undefined` (`none`): `undefined` compares false. -/
def jsRelGt (x : Option Json) (n : Rat) : Bool :=
  match x with
  | none => false
  | some j =>
    match jsNumCoerce j with
    | none => false
    | some q => decide (n < q)

/-- `x < n` where `x` may be `undefined` (`none`): `undefined` compares false. -/
def jsRelLt (x : Option Json) (n : Rat) : Bool :=
  match x with
  | none => false
  | some j =>
    match jsNumCoerce j with
    | none => false
    | some q => decide (q < n)

/-! ## `JSON.parse` -/

def isJsonWs (c : Char) : Bool := c = ' ' ∨ c = '\t' ∨ c = '\n' ∨ c = '\r'

def skipJWs : List Char → List Char := List.dropWhile isJsonWs

def hexVal (c : Char) : Option Nat :=
  if isDigitCh c then some (c.toNat - 48)
  else if 'a' ≤ c ∧ c ≤ 'f' then some (c.toNat - 87)
  else if 'A' ≤ c ∧ c ≤ 'F' then some (c.toNat - 55)
  else none

/-- The body of a JSON string after the opening quote: returns the decoded
content and the remainder after the closing quote.  Raw control characters
and invalid escapes are parse errors, as in `JSON.parse`. -/
def parseStringJ : Nat → List Char → Option (List Char × List Char)
  | 0, _ => none
  | _, [] => none
  | f + 1, c :: rest =>
    if c = '"' then some ([], rest)
    else if c = '\\' then
      match rest with
      | [] => none
      | e :: rest2 =>
        let dec : Option Char :=
          if e = '"' then some '"'
          else if e = '\\' then some '\\'
          else if e = '/' then some '/'
          else if e = 'b' then some (Char.ofNat 8)
          else if e = 'f' then some (Char.ofNat 12)
          else if e = 'n' then some '\n'
          else if e = 'r' then some '\r'
          else if e = 't' then some '\t'
          else none
        match dec with
        | some d => (parseStringJ f rest2).map (fun p => (d :: p.1, p.2))
        | none =>
          if e = 'u' then
            match rest2 with
            | h1 :: h2 :: h3 :: h4 :: rest3 =>
              match hexVal h1, hexVal h2, hexVal h3, hexVal h4 with
              | some a, some b_, some c_, some d_ =>
                (parseStringJ f rest3).map
                  (fun p => (Char.ofNat (((a * 16 + b_) * 16 + c_) * 16 + d_) :: p.1, p.2))
              | _, _, _, _ => none
            | _ => none
          else none
    else if c.toNat < 32 then none
    else (parseStringJ f rest).map (fun p => (c :: p.1, p.2))

/-- A JSON number literal: `-? (0 | [1-9][0-9]*) (. [0-9]+)? ([eE][+-]?[0-9]+)?`. -/
def parseNumberJ (s : List Char) : Option (Rat × List Char) :=
  let (neg, r0) : Bool × List Char :=
    match s with
    | '-' :: r => (true, r)
    | _ => (false, s)
  let ipOpt : Option (List Char × List Char) :=
    match r0 with
    | '0' :: r => some (['0'], r)
    | c :: _ =>
      if isDigitCh c ∧ c ≠ '0' then some (r0.takeWhile isDigitCh, r0.dropWhile isDigitCh)
      else none
    | [] => none
  match ipOpt with
  | none => none
  | some (ip, r1) =>
    let fpOpt : Option (List Char × List Char) :=
      match r1 with
      | '.' :: rr =>
        let d := rr.takeWhile isDigitCh
        if d = [] then none else some (d, rr.drop d.length)
      | _ => some ([], r1)
    match fpOpt with
    | none => none
    | some (fp, r2) =>
      let expOpt : Option (Bool × Nat × List Char) :=
        match r2 with
        | c :: rr =>
          if c = 'e' ∨ c = 'E' then
            let (esgn, rr2) : Bool × List Char :=
              match rr with
              | '-' :: r => (true, r)
              | '+' :: r => (false, r)
              | _ => (false, rr)
            let ed := rr2.takeWhile isDigitCh
            if ed = [] then none else some (esgn, digitsVal ed, rr2.drop ed.length)
          else some (false, 0, r2)
        | [] => some (false, 0, r2)
      match expOpt with
      | none => none
      | some (esgn, e, r3) =>
        let base := (digitsVal ip : Rat) + (digitsVal fp : Rat) / ((10 : Rat) ^ fp.length)
        let scaled := if esgn then base / ((10 : Rat) ^ e) else base * ((10 : Rat) ^ e)
        some ((if neg then -scaled else scaled), r3)

mutual

def parseValueJ : Nat → List Char → Option (Json × List Char)
  | 0, _ => none
  | f + 1, s =>
    match skipJWs s with
    | [] => none
    | c :: rest =>
      if c = '"' then (parseStringJ (f + 1) rest).map (fun p => (.str p.1, p.2))
      else if c = '{' then
        match skipJWs rest with
        | '}' :: r => some (.obj [], r)
        | r => parseObjFieldsJ f [] r
      else if c = '[' then
        match skipJWs rest with
        | ']' :: r => some (.arr [], r)
        | r => parseArrItemsJ f [] r
      else if c = 't' then
        if (s2l "true").isPrefixOf (c :: rest) then some (.bool true, (c :: rest).drop 4) else none
      else if c = 'f' then
        if (s2l "false").isPrefixOf (c :: rest) then some (.bool false, (c :: rest).drop 5) else none
      else if c = 'n' then
        if (s2l "null").isPrefixOf (c :: rest) then some (.null, (c :: rest).drop 4) else none
      else if c = '-' ∨ isDigitCh c then
        (parseNumberJ (c :: rest)).map (fun p => (.num p.1, p.2))
      else none

def parseObjFieldsJ : Nat → List (List Char × Json) → List Char → Option (Json × List Char)
  | 0, _, _ => none
  | f + 1, acc, s =>
    match skipJWs s with
    | '"' :: rest =>
      match parseStringJ (f + 1) rest with
      | none => none
      | some (key, r1) =>
        match skipJWs r1 with
        | ':' :: r2 =>
          match parseValueJ f r2 with
          | none => none
          | some (v, r3) =>
            match skipJWs r3 with
            | ',' :: r4 => parseObjFieldsJ f (acc ++ [(key, v)]) r4
            | '}' :: r4 => some (.obj (acc ++ [(key, v)]), r4)
            | _ => none
        | _ => none
    | _ => none

def parseArrItemsJ : Nat → List Json → List Char → Option (Json × List Char)
  | 0, _, _ => none
  | f + 1, acc, s =>
    match parseValueJ f s with
    | none => none
    | some (v, r1) =>
      match skipJWs r1 with
      | ',' :: r2 => parseArrItemsJ f (acc ++ [v]) r2
      | ']' :: r2 => some (.arr (acc ++ [v]), r2)
      | _ => none

end

/-- `JSON.parse`: parse one value and require only whitespace after it;
`none` models a thrown `SyntaxError`. -/
def jparse (s : List Char) : Option Json :=
  match parseValueJ (2 * s.length + 4) s with
  | some (v, rest) => if skipJWs rest = [] then some v else none
  | none => none

/-! ## The JSON-block scan

The source runs
`/({[\s\S]*?description[\s\S]*?})|(\[[\s\S]*?description[\s\S]*?\])/g`
over the text with `exec`.  With lazy quantifiers, a match starting at a
`{` (resp. `[`) extends to the first occurrence of the literal
`description` after it and then to the first `}` (resp. `]`) after that;
at each start position the object alternative is tried before the array
alternative (their first characters make them mutually exclusive), and
scanning resumes after each match. -/

/-- Split `s` as `pre ++ pat ++ post` with `pre` minimal. -/
def splitFirst (pat : List Char) : List Char → Option (List Char × List Char)
  | [] => if pat = [] then some ([], []) else none
  | c :: rest =>
    if pat.isPrefixOf (c :: rest) then some ([], (c :: rest).drop pat.length)
    else (splitFirst pat rest).map (fun p => (c :: p.1, p.2))

def descW : List Char := s2l "description"

def matchBody (openC closeC : Char) (rest : List Char) : Option (List Char × List Char) :=
  match splitFirst descW rest with
  | none => none
  | some (pre, post) =>
    match splitFirst [closeC] post with
    | none => none
    | some (mid, after) => some (openC :: (pre ++ descW ++ mid ++ [closeC]), after)

def matchHere : List Char → Option (List Char × List Char)
  | [] => none
  | c :: rest =>
    if c = '{' then matchBody '{' '}' rest
    else if c = '[' then matchBody '[' ']' rest
    else none

def firstJsonMatch : List Char → Option (List Char × List Char)
  | [] => none
  | c :: rest =>
    match matchHere (c :: rest) with
    | some r => some r
    | none => firstJsonMatch rest

def scanAllAux : Nat → List Char → List (List Char)
  | 0, _ => []
  | f + 1, s =>
    match firstJsonMatch s with
    | none => []
    | some (m, after) => m :: scanAllAux f after

/-- All matches of the JSON-block regex, in scan order. -/
def scanAll (s : List Char) : List (List Char) := scanAllAux (s.length + 1) s

/-! ## Scene records and the JSON pass -/

structure PromptScene where
  id : List Char
  sceneNumber : List Char
  description : Json
  shortLabel : Json
  source : List Char

/-- `item.scene_number?.toString() || (k + 1).toString()`:
a `null`/absent field, or a `toString` that yields the empty (falsy)
string, falls back to the 1-based position. -/
def snString (item : Json) (k : Nat) : List Char :=
  match jGetOpt item (s2l "scene_number") with
  | none => natToString (k + 1)
  | some .null => natToString (k + 1)
  | some v =>
    let s := jsCoerceString v
    if s = [] then natToString (k + 1) else s

/-- `item.visuals?.subject || item.title || `Scene $\x7bk + 1\x7d``. -/
def labelOf (item : Json) (k : Nat) : Json :=
  let subj : Option Json :=
    match jGetOpt item (s2l "visuals") with
    | none => none
    | some v => jGetOpt v (s2l "subject")
  match subj with
  | some sv =>
    if jsTruthy sv then sv
    else
      match jGetOpt item (s2l "title") with
      | some tv => if jsTruthy tv then tv else .str (s2l "Scene " ++ natToString (k + 1))
      | none => .str (s2l "Scene " ++ natToString (k + 1))
  | none =>
    match jGetOpt item (s2l "title") with
    | some tv => if jsTruthy tv then tv else .str (s2l "Scene " ++ natToString (k + 1))
    | none => .str (s2l "Scene " ++ natToString (k + 1))

/-- One iteration of the `items.forEach` body: push a record when
`item.description && item.description.length > 5`. -/
def acceptItem (gen : Nat → List Char) (src : List Char)
    (acc : List PromptScene) (item : Json) : List PromptScene :=
  match jGetOpt item (s2l "description") with
  | none => acc
  | some dv =>
    if jsTruthy dv = true ∧ jsRelGt (jsLengthProp dv) 5 = true then
      acc ++ [⟨gen acc.length, snString item acc.length, dv, labelOf item acc.length, src⟩]
    else acc

/-- `items.forEach(...)` inside the enclosing `try`: a `null` item makes
`item.description` throw a `TypeError`, so the remaining items of this
match are abandoned while records already pushed are kept. -/
def processItems (gen : Nat → List Char) (src : List Char) :
    List PromptScene → List Json → List PromptScene
  | acc, [] => acc
  | acc, .null :: _ => acc
  | acc, item :: rest => processItems gen src (acceptItem gen src acc item) rest

def itemsOfVal : Json → List Json
  | .arr xs => xs
  | v => [v]

/-- One iteration of the `while ((match = jsonRegex.exec(text)) ...)` loop
body: a failed `JSON.parse` is swallowed by the `catch` and scanning
continues with the accumulator unchanged. -/
def jsonStep (gen : Nat → List Char) (src : List Char)
    (acc : List PromptScene) (m : List Char) : List PromptScene :=
  match jparse m with
  | none => acc
  | some v => processItems gen src acc (itemsOfVal v)

/-- Pass 1 of `extractPromptsFromText`: scan for JSON blocks. -/
def jsonPass (gen : Nat → List Char) (text src : List Char) : List PromptScene :=
  (scanAll text).foldl (jsonStep gen src) []

/-! ## Heuristic segmentation

The split regex is
`/(?=Scene\s*\d+[:\s-]*|Prompt\s*\d+[:\s-]*|###\s*\**\d+[\.\s]|\[Scene\s*\d+\]|^\s*\d+\.\s+)/gim`.
Every alternative inside the lookahead is reduced to the condition it
imposes on the suffix at the candidate position; since `String.split`
skips the zero-width match at position 0 and at the position of the
previous cut, the chunks are the segments between the interior positions
where the lookahead holds. -/

def headDigit : List Char → Bool
  | c :: _ => isDigitCh c
  | [] => false

/-- `Scene\s*\d+[:\s-]*` (the trailing class may be empty, so only the
keyword, optional whitespace and one digit constrain the lookahead). -/
def lookScene (s : List Char) : Bool :=
  ciStarts (s2l "scene") s ∧ headDigit ((s.drop 5).dropWhile isWs)

def lookPrompt (s : List Char) : Bool :=
  ciStarts (s2l "prompt") s ∧ headDigit ((s.drop 6).dropWhile isWs)

/-- `###\s*\**\d+[\.\s]`: the maximal digit run must be followed by a dot
or whitespace. -/
def lookHashes (s : List Char) : Bool :=
  ciStarts (s2l "###") s &&
    (let r := ((s.drop 3).dropWhile isWs).dropWhile (fun c => c = '*')
     let d := r.takeWhile isDigitCh
     (!d.isEmpty) && (match r.drop d.length with
       | c :: _ => c = '.' ∨ isWs c
       | [] => false))

/-- `\[Scene\s*\d+\]`. -/
def lookBracket (s : List Char) : Bool :=
  match s with
  | '[' :: rest =>
    ciStarts (s2l "scene") rest &&
      (let r := (rest.drop 5).dropWhile isWs
       let d := r.takeWhile isDigitCh
       (!d.isEmpty) && (match r.drop d.length with
         | ']' :: _ => true
         | _ => false))
  | _ => false

/-- `^\s*\d+\.\s+` under the `m` flag: anchored at a line start. -/
def lookNumDot (atLineStart : Bool) (s : List Char) : Bool :=
  atLineStart &&
    (let r := s.dropWhile isWs
     let d := r.takeWhile isDigitCh
     (!d.isEmpty) && (match r.drop d.length with
       | '.' :: rr => (match rr with
         | c :: _ => isWs c
         | [] => false)
       | _ => false))

def lookMatch (atLineStart : Bool) (s : List Char) : Bool :=
  lookScene s ∨ lookPrompt s ∨ lookHashes s ∨ lookBracket s ∨ lookNumDot atLineStart s

def isLineBreak (c : Char) : Bool :=
  c = '\n' ∨ c = '\r' ∨ c.toNat = 8232 ∨ c.toNat = 8233

def splitAux : List Char → Char → List Char → List (List Char)
  | [], _, cur => [cur.reverse]
  | c :: rest, prev, cur =>
    if lookMatch (isLineBreak prev) (c :: rest)
    then cur.reverse :: splitAux rest c [c]
    else splitAux rest c (c :: cur)

/-- `text.split(splitRegex)`. -/
def splitChunks : List Char → List (List Char)
  | [] => [[]]
  | c :: rest => splitAux rest c [c]

/-- Index of the last newline in a run of whitespace. -/
def lastNlIdx : List Char → Option Nat
  | [] => none
  | c :: rest =>
    match lastNlIdx rest with
    | some k => some (k + 1)
    | none => if c = '\n' then some 0 else none

/-- `text.split(/\n\s*\n/)`: a greedy match starting at a newline extends
through the last newline of the maximal whitespace run that follows. -/
def blankSplitAux : Nat → List Char → List Char → List (List Char)
  | 0, s, cur => [cur.reverse ++ s]
  | _ + 1, [], cur => [cur.reverse]
  | f + 1, c :: rest, cur =>
    if c = '\n' then
      match lastNlIdx (rest.takeWhile isWs) with
      | some k => cur.reverse :: blankSplitAux f (rest.drop (k + 1)) []
      | none => blankSplitAux f rest (c :: cur)
    else blankSplitAux f rest (c :: cur)

def blankSplit (s : List Char) : List (List Char) := blankSplitAux (s.length + 1) s []

/-- The chunk list: header-marker split, falling back to blank-line split
when the former produced at most one chunk. -/
def heuristicChunks (text : List Char) : List (List Char) :=
  let chunks := splitChunks text
  if chunks.length ≤ 1 then blankSplit text else chunks

/-! ## Per-chunk filtering, cleanup and record building -/

/-- `/^(Got it|Here are|Below are|Sure|Certainly|I\x27ve written|The following)/i`. -/
def isIntro (s : List Char) : Bool :=
  ciStarts (s2l "got it") s ∨ ciStarts (s2l "here are") s ∨ ciStarts (s2l "below are") s ∨
  ciStarts (s2l "sure") s ∨ ciStarts (s2l "certainly") s ∨
  ciStarts (s2l "i\x27ve written") s ∨ ciStarts (s2l "the following") s

/-- `cleanChunk.split(' ').length`: one more than the number of spaces. -/
def wordCount (s : List Char) : Nat := s.countP (fun c => c = ' ') + 1

/-- `\s*(\d+)` after an alternative's keyword: the captured digit run. -/
def numAfter (r : List Char) : Option (List Char) :=
  let d := (r.dropWhile isWs).takeWhile isDigitCh
  if d = [] then none else some d

/-- One position of `/(?:Scene|Prompt|###\s*\**|\[Scene|^)\s*(\d+)/i`:
alternatives tried in source order; `^` (no `m` flag) only at position 0. -/
def tryNumAlts (atStart : Bool) (s : List Char) : Option (List Char) :=
  (if ciStarts (s2l "scene") s then numAfter (s.drop 5) else none) <|>
  (if ciStarts (s2l "prompt") s then numAfter (s.drop 6) else none) <|>
  (if ciStarts (s2l "###") s then
    numAfter (((s.drop 3).dropWhile isWs).dropWhile (fun c => c = '*')) else none) <|>
  (match s with
   | '[' :: rest => if ciStarts (s2l "scene") rest then numAfter (rest.drop 5) else none
   | _ => none) <|>
  (if atStart then numAfter s else none)

def numScan : List Char → Bool → Option (List Char)
  | [], _ => none
  | c :: rest, atStart => tryNumAlts atStart (c :: rest) <|> numScan rest false

/-- `cleanChunk.match(numRegex)`: the first captured scene number. -/
def numMatchFirst (s : List Char) : Option (List Char) := numScan s true

/-- `/^(Scene|Prompt|###)\s*\**\d+[\.\s-]*\**[:\s-]*/i` as an anchored
recognizer: `some r` is the remainder after the matched prefix.  All the
trailing pieces are star-quantified, so matching is pure greedy
left-to-right once the keyword and a digit run are found. -/
def headerMatchAt (s : List Char) : Option (List Char) :=
  let kwRest : Option (List Char) :=
    if ciStarts (s2l "scene") s then some (s.drop 5)
    else if ciStarts (s2l "prompt") s then some (s.drop 6)
    else if ciStarts (s2l "###") s then some (s.drop 3)
    else none
  match kwRest with
  | none => none
  | some r =>
    let r1 := (r.dropWhile isWs).dropWhile (fun c => c = '*')
    let d := r1.takeWhile isDigitCh
    if d = [] then none
    else
      let r2 := (r1.drop d.length).dropWhile (fun c => c = '.' ∨ isWs c ∨ c = '-')
      let r3 := r2.dropWhile (fun c => c = '*')
      some (r3.dropWhile (fun c => c = ':' ∨ isWs c ∨ c = '-'))

/-- `.replace(headerRegex, '')`. -/
def stripHeader (s : List Char) : List Char := (headerMatchAt s).getD s

/-- `/^\d+\.\s+/` as an anchored recognizer. -/
def numDotMatchAt (s : List Char) : Option (List Char) :=
  let d := s.takeWhile isDigitCh
  if d = [] then none
  else
    match s.drop d.length with
    | '.' :: r =>
      let ws := r.takeWhile isWs
      if ws = [] then none else some (r.drop ws.length)
    | _ => none

/-- `.replace(numDotRegex, '')`. -/
def stripNumDot (s : List Char) : List Char := (numDotMatchAt s).getD s

/-- The header-prefix-stripping cleanup applied to a chunk:
`chunk.replace(headerRegex, '').replace(numDotRegex, '').trim()`. -/
def cleanupStep (s : List Char) : List Char := trimChars (stripNumDot (stripHeader s))

/-- The body of `chunks.forEach` in pass 2. -/
def processChunk (gen : Nat → List Char) (src : List Char)
    (acc : List PromptScene) (chunk : List Char) : List PromptScene :=
  let cleanChunk := trimChars chunk
  if cleanChunk.length < 10 then acc
  else if isIntro cleanChunk = true ∧ acc.length = 0 ∧ wordCount cleanChunk < 30 then acc
  else
    let sceneNum := (numMatchFirst cleanChunk).getD (natToString (acc.length + 1))
    let finalDescription := cleanupStep cleanChunk
    if finalDescription.length > 5 then
      acc ++ [⟨gen acc.length, sceneNum, .str finalDescription,
              .str (finalDescription.take 40 ++ s2l "..."), src⟩]
    else acc

/-- Pass 2 of `extractPromptsFromText`. -/
def heuristicPass (gen : Nat → List Char) (text src : List Char) : List PromptScene :=
  (heuristicChunks text).foldl (processChunk gen src) []

/-! ## The merge pass -/

/-- `current.description.length < 50`. -/
def titleLike (r : PromptScene) : Bool := jsRelLt (jsLengthProp r.description) 50

/-- Merging a title-like record into its successor: the template literal
``$\x7bcurrent.description\x7d\nn$\x7bnext.description\x7d``
(with a single newline) plus the scene-number override. -/
def mergeInto (current next : PromptScene) : PromptScene :=
  { next with
    description := .str (jsCoerceString current.description ++ '\n' :: jsCoerceString next.description)
    sceneNumber := current.sceneNumber }

/-- Pass 3, fuelled for structural recursion: every step shortens the list
by one, so `l.length` fuel always suffices and the zero-fuel case is
unreachable. -/
def mergeLoopF : Nat → List PromptScene → List PromptScene
  | _, [] => []
  | _, [a] => [a]
  | 0, l => l
  | f + 1, a :: b :: rest =>
    if titleLike a then mergeLoopF f (mergeInto a b :: rest)
    else a :: mergeLoopF f (b :: rest)

/-- Pass 3: the in-place merge loop.  Because the source mutates
`extracted[i + 1]` before visiting it, a chain of short records folds
left-to-right into the first long one. -/
def mergeLoop (l : List PromptScene) : List PromptScene := mergeLoopF l.length l

/-- `merged.length > 0 ? merged : extracted`. -/
def mergeResult (extracted : List PromptScene) : List PromptScene :=
  let merged := mergeLoop extracted
  if merged.length > 0 then merged else extracted

/-! ## The extractor -/

/-- `extractPromptsFromText(text, sourceName)` of `src/App.tsx`, with the
random id source abstracted into `gen`. -/
def extractPromptsFromText (gen : Nat → List Char) (text src : List Char) : List PromptScene :=
  let extracted := jsonPass gen text src
  if extracted.length > 0 then extracted
  else mergeResult (heuristicPass gen text src)

/-! ## Clipboard-then-navigate glue -/

inductive BrowserEffect where
  | clipboardWrite (content : List Char) : BrowserEffect
  | openUrl (url : List Char) : BrowserEffect
  deriving DecidableEq

/-- `getCombinedPrompt`. -/
def getCombinedPrompt (globalSuffix desc : List Char) : List Char :=
  if trimChars globalSuffix ≠ [] then desc ++ s2l "\n\n" ++ trimChars globalSuffix else desc

def grokUrl : List Char := s2l "https://grok.com/imagine"

/-- `openInGrok`: the clipboard write always happens; the `.then` callback
opening the URL runs only when the write promise fulfils (`clipboardOk`). -/
def openInGrok (globalSuffix promptText : List Char) (clipboardOk : Bool) : List BrowserEffect :=
  let fullPrompt := getCombinedPrompt globalSuffix promptText
  BrowserEffect.clipboardWrite fullPrompt ::
    (if clipboardOk then [BrowserEffect.openUrl grokUrl] else [])

/-! ## Observables used by the theorems -/

/-- A record's description is non-empty in its own shape: a non-empty
string, a non-empty array, or an object with at least one field. -/
def descNonEmpty : Json → Bool
  | .str s => !s.isEmpty
  | .arr xs => !xs.isEmpty
  | .obj f => !f.isEmpty
  | .null => false
  | .bool _ => false
  | .num _ => false

/-- Everything of a record except its randomly generated id. -/
def eraseId (r : PromptScene) : List Char × Json × Json × List Char :=
  (r.sceneNumber, r.description, r.shortLabel, r.source)

/-! ## Concrete fixtures -/

def exGen : Nat → List Char := fun n => s2l "id" ++ natToString n

def exSrc : List Char := s2l "file.txt"

def jIn : List Char := s2l "\x7b\x22description\x22:\x22abcdefg\x22\x7d"

def inC3 : List Char := s2l "\x7bdescription: unquoted\x7d\n\nA plain paragraph that is long enough."

def c3Rec : PromptScene :=
  ⟨exGen 1, s2l "1",
   .str (s2l "\x7bdescription: unquoted\x7d\nA plain paragraph that is long enough."),
   .str (s2l "A plain paragraph that is long enough...."), exSrc⟩

def inC4 : List Char :=
  s2l "Scene 1: A cat sits.\n\nScene 2: A dog runs far away into the misty forest."

def c4Rec : PromptScene :=
  ⟨exGen 1, s2l "1",
   .str (s2l "A cat sits.\nA dog runs far away into the misty forest."),
   .str (s2l "A dog runs far away into the misty fores..."), exSrc⟩

def inC5 : List Char :=
  s2l "Got it! Here are your prompts:\n\nTitle\n\nScene 2: A long enough descriptive prompt about a forest at dawn with birds singing loudly."

def c5Desc : List Char :=
  s2l "A long enough descriptive prompt about a forest at dawn with birds singing loudly."

def c5Rec : PromptScene :=
  ⟨exGen 0, s2l "2", .str c5Desc,
   .str (s2l "A long enough descriptive prompt about a..."), exSrc⟩

def c6Chunk : List Char := s2l "Sure thing, this text is definitely long enough."

def inC7 : List Char := s2l "This paragraph is long enough for one scene."

def c7Rec : PromptScene :=
  ⟨exGen 0, s2l "1", .str inC7,
   .str (s2l "This paragraph is long enough for one sc..."), exSrc⟩

def exScene : PromptScene :=
  ⟨s2l "id0", s2l "7", .str (s2l "hello there"), .str (s2l "hello there..."), exSrc⟩

/-! ## Shared lemmas -/

theorem trimChars_eq_rdrop (s : List Char) :
    trimChars s = List.rdropWhile isWs (List.dropWhile isWs s) := rfl

theorem trimChars_trimChars (s : List Char) : trimChars (trimChars s) = trimChars s := by
  rw [trimChars_eq_rdrop s, trimChars_eq_rdrop]
  have h1 : List.dropWhile isWs (List.rdropWhile isWs (List.dropWhile isWs s)) =
      List.rdropWhile isWs (List.dropWhile isWs s) := by
    rw [List.dropWhile_eq_self_iff]
    intro hl
    have hpre := List.rdropWhile_prefix isWs (List.dropWhile isWs s)
    have hlY : 0 < (List.dropWhile isWs s).length := lt_of_lt_of_le hl hpre.length_le
    simp only [List.get_eq_getElem]
    rw [List.IsPrefix.getElem hpre hl]
    have h0 := List.dropWhile_get_zero_not isWs s hlY
    simpa using h0
  rw [h1, List.rdropWhile_idempotent]

theorem mergeLoopF_length_le (f : Nat) : ∀ l : List PromptScene, (mergeLoopF f l).length ≤ l.length := by
  induction f with
  | zero =>
    intro l
    cases l with
    | nil => simp [mergeLoopF]
    | cons a t =>
      cases t with
      | nil => simp [mergeLoopF]
      | cons b rest => simp [mergeLoopF]
  | succ f ih =>
    intro l
    cases l with
    | nil => simp [mergeLoopF]
    | cons a t =>
      cases t with
      | nil => simp [mergeLoopF]
      | cons b rest =>
        simp only [mergeLoopF]
        by_cases h : titleLike a = true
        · rw [if_pos h]
          have := ih (mergeInto a b :: rest)
          simp only [List.length_cons] at this ⊢
          omega
        · rw [if_neg h]
          have := ih (b :: rest)
          simp only [List.length_cons] at this ⊢
          omega

theorem mergeLoopF_ne_nil (f : Nat) : ∀ l : List PromptScene, l ≠ [] → mergeLoopF f l ≠ [] := by
  induction f with
  | zero =>
    intro l hl
    cases l with
    | nil => exact absurd rfl hl
    | cons a t =>
      cases t with
      | nil => simp [mergeLoopF]
      | cons b rest => simp [mergeLoopF]
  | succ f ih =>
    intro l hl
    cases l with
    | nil => exact absurd rfl hl
    | cons a t =>
      cases t with
      | nil => simp [mergeLoopF]
      | cons b rest =>
        simp only [mergeLoopF]
        by_cases h : titleLike a = true
        · rw [if_pos h]
          exact ih _ (by simp)
        · rw [if_neg h]
          simp

theorem mergeLoop_length_le (l : List PromptScene) : (mergeLoop l).length ≤ l.length :=
  mergeLoopF_length_le l.length l

theorem mergeLoop_ne_nil (l : List PromptScene) (hl : l ≠ []) : mergeLoop l ≠ [] :=
  mergeLoopF_ne_nil l.length l hl

/-! ## Claim theorems -/

set_option maxRecDepth 40000

/-- Claim C1: whenever the JSON-block scan accepts at least one scene, the
extractor returns exactly the JSON-derived list; the heuristic
segmentation, filtering and merge passes are not applied to this input. -/
theorem c1_json_priority (gen : Nat → List Char) (text src : List Char)
    (h : jsonPass gen text src ≠ []) :
    extractPromptsFromText gen text src = jsonPass gen text src := by
  unfold extractPromptsFromText
  simp [List.length_pos.mpr h]

/-- Witness for C1: an input whose JSON scan accepts one scene. -/
theorem c1_json_priority_witness :
    jsonPass exGen jIn exSrc ≠ [] ∧
      extractPromptsFromText exGen jIn exSrc = jsonPass exGen jIn exSrc := by
  have hlen : (jsonPass exGen jIn exSrc).length = 1 := by rfl
  have h : jsonPass exGen jIn exSrc ≠ [] := by
    intro he
    rw [he] at hlen
    simp at hlen
  exact ⟨h, c1_json_priority exGen jIn exSrc h⟩

/-- Claim C2: the merge pass (with its empty-result fallback) never
increases the record count and never empties a non-empty list. -/
theorem c2_merge_pass_bounds (l : List PromptScene) :
    (mergeResult l).length ≤ l.length ∧ (l ≠ [] → mergeResult l ≠ []) := by
  constructor
  · simp only [mergeResult]
    split_ifs with h
    · exact mergeLoop_length_le l
    · exact le_refl _
  · intro hl
    simp only [mergeResult]
    split_ifs with h
    · exact mergeLoop_ne_nil l hl
    · exact hl

/-- Witness for C2: a singleton pre-merge list. -/
theorem c2_merge_pass_bounds_witness :
    (mergeResult [exScene]).length ≤ 1 ∧ mergeResult [exScene] ≠ [] :=
  ⟨(c2_merge_pass_bounds [exScene]).1, (c2_merge_pass_bounds [exScene]).2 (by simp)⟩

/-- Claim C3: on an input whose only JSON-looking block is the malformed
`\x7bdescription: unquoted\x7d`, the scan does find that candidate, its parse
fails and is swallowed, the JSON pass accepts nothing, and the extractor
falls through to heuristic segmentation, returning records produced from
plain-text splitting (the embedding is total, so no exception escapes). -/
theorem c3_malformed_json_falls_through :
    scanAll inC3 = [s2l "\x7bdescription: unquoted\x7d"] ∧
    jparse (s2l "\x7bdescription: unquoted\x7d") = none ∧
    jsonPass exGen inC3 exSrc = [] ∧
    extractPromptsFromText exGen inC3 exSrc = mergeResult (heuristicPass exGen inC3 exSrc) ∧
    extractPromptsFromText exGen inC3 exSrc = [c3Rec] :=
  ⟨rfl, rfl, rfl, rfl, rfl⟩

/-- Counterexample to C4: on scenario A's input the extractor does not
return two records. -/
theorem c4_scenario_a_counterexample :
    (extractPromptsFromText exGen inC4 exSrc).length ≠ 2 := by decide

/-- Amended C4: on scenario A's input both chunks are header-stripped, but
the first cleaned description ("A cat sits.", 11 characters) is below the
50-character merge threshold, so the merge pass folds it into the second
record: exactly one record is returned, carrying scene number "1" and the
two stripped descriptions joined by a newline. -/
theorem c4_scenario_a_amended :
    extractPromptsFromText exGen inC4 exSrc = [c4Rec] := rfl

/-- Counterexample to C5: on scenario C's input the "Title" chunk is not
merged into the returned scene record — the single returned record's
description is the stripped scene text, which does not contain "Title". -/
theorem c5_scenario_c_counterexample :
    extractPromptsFromText exGen inC5 exSrc = [c5Rec] ∧
      splitFirst (s2l "Title") c5Desc = none :=
  ⟨rfl, by decide⟩

/-- Amended C5: because the header-marker split already yields two chunks,
the blank-line split never runs, so "Title" stays inside the leading
conversational-filler chunk and is dropped with it; the single returned
record carries its own header's scene number "2" and the header-stripped
description. -/
theorem c5_scenario_c_amended :
    heuristicChunks inC5 =
      [s2l "Got it! Here are your prompts:\n\nTitle\n\n",
       s2l "Scene 2: A long enough descriptive prompt about a forest at dawn with birds singing loudly."] ∧
    extractPromptsFromText exGen inC5 exSrc = [c5Rec] :=
  ⟨rfl, rfl⟩

/-- Claim C6: for a chunk that survives both length checks, the per-chunk
step discards it (as conversational filler) iff it starts with an
introductory phrase, its word count is under 30, and no scene has been
accepted yet; in particular once `acc` is non-empty no chunk is ever
suppressed as filler. -/
theorem c6_filler_iff (gen : Nat → List Char) (src : List Char)
    (acc : List PromptScene) (chunk : List Char)
    (h1 : 10 ≤ (trimChars chunk).length)
    (h2 : 5 < (cleanupStep (trimChars chunk)).length) :
    processChunk gen src acc chunk = acc ↔
      (isIntro (trimChars chunk) = true ∧ acc = [] ∧ wordCount (trimChars chunk) < 30) := by
  unfold processChunk
  rw [if_neg (by omega)]
  by_cases hf : isIntro (trimChars chunk) = true ∧ acc.length = 0 ∧ wordCount (trimChars chunk) < 30
  · rw [if_pos hf]
    simp only [true_iff]
    exact ⟨hf.1, List.length_eq_zero.mp hf.2.1, hf.2.2⟩
  · rw [if_neg hf, if_pos (by omega)]
    constructor
    · intro he
      have := congrArg List.length he
      simp at this
    · intro hr
      exact absurd ⟨hr.1, List.length_eq_zero.mpr hr.2.1, hr.2.2⟩ hf

/-- Witness for C6: a short introductory chunk with an empty accumulator is
discarded as filler. -/
theorem c6_filler_iff_witness :
    processChunk exGen exSrc [] c6Chunk = [] :=
  (c6_filler_iff exGen exSrc [] c6Chunk (by decide) (by decide)).mpr
    ⟨by decide, rfl, by decide⟩

/-- Counterexample to C8: the header-prefix-stripping cleanup is not
idempotent — stacked "N. " prefixes are stripped one per application. -/
theorem c8_cleanup_not_idempotent :
    cleanupStep (cleanupStep (s2l "1. 2. abcdef")) ≠ cleanupStep (s2l "1. 2. abcdef") := by
  decide

/-- Amended C8: the cleanup step is idempotent on every string whose
cleaned form no longer begins with a recognized header marker or a
"digits-dot-space" prefix (stacked prefixes are the only obstruction). -/
theorem c8_cleanup_idem_of_no_marker (s : List Char)
    (h1 : headerMatchAt (cleanupStep s) = none)
    (h2 : numDotMatchAt (cleanupStep s) = none) :
    cleanupStep (cleanupStep s) = cleanupStep s := by
  have e1 : stripHeader (cleanupStep s) = cleanupStep s := by
    rw [stripHeader, h1]
    rfl
  have e2 : stripNumDot (cleanupStep s) = cleanupStep s := by
    rw [stripNumDot, h2]
    rfl
  show trimChars (stripNumDot (stripHeader (cleanupStep s))) = cleanupStep s
  rw [e1, e2, cleanupStep, trimChars_trimChars]

/-- Witness for C8: a plain cleaned string is a fixed point of cleanup. -/
theorem c8_cleanup_idem_witness :
    cleanupStep (cleanupStep (s2l "hello world")) = cleanupStep (s2l "hello world") :=
  c8_cleanup_idem_of_no_marker (s2l "hello world") (by decide) (by decide)

/-- Claim C9: in the copy-and-open sequence the URL is opened only inside
the fulfilment continuation of the clipboard write, so a trace containing
the open-URL effect can only arise when the write succeeded. -/
theorem c9_clipboard_gates_navigation (globalSuffix promptText url : List Char)
    (clipboardOk : Bool)
    (h : BrowserEffect.openUrl url ∈ openInGrok globalSuffix promptText clipboardOk) :
    clipboardOk = true := by
  cases clipboardOk with
  | true => rfl
  | false =>
    exfalso
    simp [openInGrok] at h

/-- Witness for C9: with a succeeding write the URL is opened, and the
theorem recovers the success flag. -/
theorem c9_clipboard_gates_navigation_witness :
    BrowserEffect.openUrl grokUrl ∈ openInGrok [] (s2l "hi") true ∧ true = true :=
  ⟨by decide, c9_clipboard_gates_navigation [] (s2l "hi") grokUrl true (by decide)⟩

/-! ## Lemmas for C7: every produced description is non-empty -/

theorem foldl_forall_mem {α β : Type} (P : α → Prop) (f : List α → β → List α)
    (hf : ∀ acc b, (∀ x ∈ acc, P x) → ∀ x ∈ f acc b, P x) :
    ∀ (l : List β) (acc : List α), (∀ x ∈ acc, P x) → ∀ x ∈ l.foldl f acc, P x := by
  intro l
  induction l with
  | nil => intro acc h; simpa using h
  | cons b t ih =>
    intro acc h
    simp only [List.foldl_cons]
    exact ih (f acc b) (hf acc b h)

/-- A description that passes the truthiness test and the `.length > 5`
test is non-empty in its own shape. -/
theorem accepted_descNonEmpty (dv : Json)
    (h1 : jsTruthy dv = true) (h2 : jsRelGt (jsLengthProp dv) 5 = true) :
    descNonEmpty dv = true := by
  cases dv with
  | null => simp [jsTruthy] at h1
  | bool b => simp [jsLengthProp, jsRelGt] at h2
  | num q => simp [jsLengthProp, jsRelGt] at h2
  | str s =>
    simp only [jsTruthy, decide_eq_true_eq] at h1
    simpa [descNonEmpty, List.isEmpty_iff] using h1
  | arr xs =>
    simp only [jsLengthProp, jsRelGt, jsNumCoerce, decide_eq_true_eq] at h2
    have h4 : (5 : Nat) < xs.length := by exact_mod_cast h2
    have h5 : xs ≠ [] := by
      intro he
      rw [he] at h4
      simp at h4
    simp [descNonEmpty, List.isEmpty_iff, h5]
  | obj f =>
    cases f with
    | nil => simp [jsLengthProp, jGet, jsRelGt] at h2
    | cons kv rest => simp [descNonEmpty]

theorem acceptItem_descInv (gen : Nat → List Char) (src : List Char)
    (acc : List PromptScene) (item : Json)
    (h : ∀ r ∈ acc, descNonEmpty r.description = true) :
    ∀ r ∈ acceptItem gen src acc item, descNonEmpty r.description = true := by
  intro r hr
  cases hj : jGetOpt item (s2l "description") with
  | none =>
    simp only [acceptItem, hj] at hr
    exact h r hr
  | some dv =>
    simp only [acceptItem, hj] at hr
    by_cases hc : jsTruthy dv = true ∧ jsRelGt (jsLengthProp dv) 5 = true
    · rw [if_pos hc] at hr
      rcases List.mem_append.mp hr with hm | hm
      · exact h r hm
      · rw [List.mem_singleton.mp hm]
        exact accepted_descNonEmpty dv hc.1 hc.2
    · rw [if_neg hc] at hr
      exact h r hr

theorem processItems_descInv (gen : Nat → List Char) (src : List Char) (items : List Json) :
    ∀ acc, (∀ r ∈ acc, descNonEmpty r.description = true) →
      ∀ r ∈ processItems gen src acc items, descNonEmpty r.description = true := by
  induction items with
  | nil => intro acc h; simpa [processItems] using h
  | cons item rest ih =>
    intro acc h
    cases item with
    | null => simpa [processItems] using h
    | bool b => simp only [processItems]; exact ih _ (acceptItem_descInv gen src acc _ h)
    | num q => simp only [processItems]; exact ih _ (acceptItem_descInv gen src acc _ h)
    | str s => simp only [processItems]; exact ih _ (acceptItem_descInv gen src acc _ h)
    | arr xs => simp only [processItems]; exact ih _ (acceptItem_descInv gen src acc _ h)
    | obj f => simp only [processItems]; exact ih _ (acceptItem_descInv gen src acc _ h)

theorem jsonPass_descInv (gen : Nat → List Char) (text src : List Char) :
    ∀ r ∈ jsonPass gen text src, descNonEmpty r.description = true := by
  unfold jsonPass
  refine foldl_forall_mem _ _ ?_ (scanAll text) [] (by simp)
  intro acc m h r hr
  cases hp : jparse m with
  | none =>
    simp only [jsonStep, hp] at hr
    exact h r hr
  | some v =>
    simp only [jsonStep, hp] at hr
    exact processItems_descInv gen src (itemsOfVal v) acc h r hr

theorem processChunk_descInv (gen : Nat → List Char) (src : List Char)
    (acc : List PromptScene) (chunk : List Char)
    (h : ∀ r ∈ acc, descNonEmpty r.description = true) :
    ∀ r ∈ processChunk gen src acc chunk, descNonEmpty r.description = true := by
  intro r hr
  simp only [processChunk] at hr
  split_ifs at hr with h1 h2 h3
  · exact h r hr
  · exact h r hr
  · rcases List.mem_append.mp hr with hm | hm
    · exact h r hm
    · rw [List.mem_singleton.mp hm]
      have h5 : cleanupStep (trimChars chunk) ≠ [] := by
        intro he
        rw [he] at h3
        simp at h3
      simp [descNonEmpty, List.isEmpty_iff, h5]
  · exact h r hr

theorem heuristicPass_descInv (gen : Nat → List Char) (text src : List Char) :
    ∀ r ∈ heuristicPass gen text src, descNonEmpty r.description = true := by
  unfold heuristicPass
  exact foldl_forall_mem _ _ (fun acc b hb => processChunk_descInv gen src acc b hb)
    (heuristicChunks text) [] (by simp)

theorem mergeInto_descNonEmpty (a b : PromptScene) :
    descNonEmpty (mergeInto a b).description = true := by
  simp [mergeInto, descNonEmpty]

theorem mergeLoopF_descInv (f : Nat) :
    ∀ l, (∀ r ∈ l, descNonEmpty r.description = true) →
      ∀ r ∈ mergeLoopF f l, descNonEmpty r.description = true := by
  induction f with
  | zero =>
    intro l h
    cases l with
    | nil => simp [mergeLoopF] at *
    | cons a t =>
      cases t with
      | nil => simpa [mergeLoopF] using h
      | cons b rest => simpa [mergeLoopF] using h
  | succ f ih =>
    intro l h
    cases l with
    | nil => simp [mergeLoopF] at *
    | cons a t =>
      cases t with
      | nil => simpa [mergeLoopF] using h
      | cons b rest =>
        simp only [mergeLoopF]
        split_ifs with hc
        · apply ih
          intro r hr
          rcases List.mem_cons.mp hr with hm | hm
          · rw [hm]
            exact mergeInto_descNonEmpty a b
          · exact h r (by simp [hm])
        · intro r hr
          rcases List.mem_cons.mp hr with hm | hm
          · exact hm ▸ h a (by simp)
          · exact ih (b :: rest) (fun x hx => h x (List.mem_cons_of_mem a hx)) r hm

theorem mergeResult_descInv (l : List PromptScene)
    (h : ∀ r ∈ l, descNonEmpty r.description = true) :
    ∀ r ∈ mergeResult l, descNonEmpty r.description = true := by
  simp only [mergeResult]
  split_ifs with hc
  · exact mergeLoopF_descInv l.length l h
  · exact h

/-- Claim C7: every record returned by the extractor — JSON-derived,
heuristic-derived, or rewritten by the merge pass — has a non-empty
description. -/
theorem c7_descriptions_nonempty (gen : Nat → List Char) (text src : List Char) :
    ∀ r ∈ extractPromptsFromText gen text src, descNonEmpty r.description = true := by
  simp only [extractPromptsFromText]
  split_ifs with hc
  · exact jsonPass_descInv gen text src
  · exact mergeResult_descInv _ (heuristicPass_descInv gen text src)

/-- Witness for C7: the record extracted from a one-paragraph input. -/
theorem c7_descriptions_nonempty_witness :
    descNonEmpty c7Rec.description = true :=
  c7_descriptions_nonempty exGen inC7 exSrc c7Rec (by
    have he : extractPromptsFromText exGen inC7 exSrc = [c7Rec] := rfl
    rw [he]
    exact List.mem_singleton_self _)

/-! ## Lemmas for C10: the extractor is deterministic modulo the id field -/

theorem foldl_eraseId_congr {β : Type} (f1 f2 : List PromptScene → β → List PromptScene)
    (hstep : ∀ acc1 acc2 b, acc1.map eraseId = acc2.map eraseId →
      (f1 acc1 b).map eraseId = (f2 acc2 b).map eraseId) :
    ∀ (l : List β) (acc1 acc2 : List PromptScene), acc1.map eraseId = acc2.map eraseId →
      (l.foldl f1 acc1).map eraseId = (l.foldl f2 acc2).map eraseId := by
  intro l
  induction l with
  | nil => intro a1 a2 h; simpa using h
  | cons b t ih =>
    intro a1 a2 h
    simp only [List.foldl_cons]
    exact ih _ _ (hstep a1 a2 b h)

theorem acceptItem_eraseId (g1 g2 : Nat → List Char) (src : List Char) (item : Json)
    (acc1 acc2 : List PromptScene) (h : acc1.map eraseId = acc2.map eraseId) :
    (acceptItem g1 src acc1 item).map eraseId = (acceptItem g2 src acc2 item).map eraseId := by
  have hlen : acc1.length = acc2.length := by simpa using congrArg List.length h
  cases hj : jGetOpt item (s2l "description") with
  | none =>
    simp only [acceptItem, hj]
    exact h
  | some dv =>
    simp only [acceptItem, hj]
    by_cases hc : jsTruthy dv = true ∧ jsRelGt (jsLengthProp dv) 5 = true
    · rw [if_pos hc, if_pos hc]
      simp only [List.map_append, List.map_cons, List.map_nil, eraseId]
      rw [h, hlen]
    · rw [if_neg hc, if_neg hc]
      exact h

theorem processItems_eraseId (g1 g2 : Nat → List Char) (src : List Char) (items : List Json) :
    ∀ acc1 acc2, acc1.map eraseId = acc2.map eraseId →
      (processItems g1 src acc1 items).map eraseId =
        (processItems g2 src acc2 items).map eraseId := by
  induction items with
  | nil => intro a1 a2 h; simpa [processItems] using h
  | cons item rest ih =>
    intro a1 a2 h
    cases item with
    | null => simpa [processItems] using h
    | bool b => simp only [processItems]; exact ih _ _ (acceptItem_eraseId g1 g2 src _ a1 a2 h)
    | num q => simp only [processItems]; exact ih _ _ (acceptItem_eraseId g1 g2 src _ a1 a2 h)
    | str s => simp only [processItems]; exact ih _ _ (acceptItem_eraseId g1 g2 src _ a1 a2 h)
    | arr xs => simp only [processItems]; exact ih _ _ (acceptItem_eraseId g1 g2 src _ a1 a2 h)
    | obj f => simp only [processItems]; exact ih _ _ (acceptItem_eraseId g1 g2 src _ a1 a2 h)

theorem jsonStep_eraseId (g1 g2 : Nat → List Char) (src : List Char)
    (acc1 acc2 : List PromptScene) (m : List Char) (h : acc1.map eraseId = acc2.map eraseId) :
    (jsonStep g1 src acc1 m).map eraseId = (jsonStep g2 src acc2 m).map eraseId := by
  cases hp : jparse m with
  | none => simp only [jsonStep, hp]; exact h
  | some v =>
    simp only [jsonStep, hp]
    exact processItems_eraseId g1 g2 src (itemsOfVal v) acc1 acc2 h

theorem jsonPass_eraseId (g1 g2 : Nat → List Char) (text src : List Char) :
    (jsonPass g1 text src).map eraseId = (jsonPass g2 text src).map eraseId := by
  unfold jsonPass
  exact foldl_eraseId_congr _ _
    (fun a1 a2 m hm => jsonStep_eraseId g1 g2 src a1 a2 m hm) (scanAll text) [] [] rfl

theorem processChunk_eraseId (g1 g2 : Nat → List Char) (src : List Char)
    (acc1 acc2 : List PromptScene) (chunk : List Char)
    (h : acc1.map eraseId = acc2.map eraseId) :
    (processChunk g1 src acc1 chunk).map eraseId =
      (processChunk g2 src acc2 chunk).map eraseId := by
  have hlen : acc1.length = acc2.length := by simpa using congrArg List.length h
  simp only [processChunk]
  by_cases h1 : (trimChars chunk).length < 10
  · rw [if_pos h1, if_pos h1]
    exact h
  · rw [if_neg h1, if_neg h1]
    by_cases h2 : isIntro (trimChars chunk) = true ∧ acc1.length = 0 ∧
        wordCount (trimChars chunk) < 30
    · have h2b : isIntro (trimChars chunk) = true ∧ acc2.length = 0 ∧
          wordCount (trimChars chunk) < 30 := ⟨h2.1, by omega, h2.2.2⟩
      rw [if_pos h2, if_pos h2b]
      exact h
    · have h2b : ¬(isIntro (trimChars chunk) = true ∧ acc2.length = 0 ∧
          wordCount (trimChars chunk) < 30) := by
        intro hx
        exact h2 ⟨hx.1, by omega, hx.2.2⟩
      rw [if_neg h2, if_neg h2b]
      by_cases h3 : (cleanupStep (trimChars chunk)).length > 5
      · rw [if_pos h3, if_pos h3]
        simp only [List.map_append, List.map_cons, List.map_nil, eraseId]
        rw [h, hlen]
      · rw [if_neg h3, if_neg h3]
        exact h

theorem heuristicPass_eraseId (g1 g2 : Nat → List Char) (text src : List Char) :
    (heuristicPass g1 text src).map eraseId = (heuristicPass g2 text src).map eraseId := by
  unfold heuristicPass
  exact foldl_eraseId_congr _ _
    (fun a1 a2 c hc => processChunk_eraseId g1 g2 src a1 a2 c hc)
    (heuristicChunks text) [] [] rfl

theorem titleLike_eraseId (a1 a2 : PromptScene) (ha : eraseId a1 = eraseId a2) :
    titleLike a1 = titleLike a2 := by
  simp only [eraseId, Prod.mk.injEq] at ha
  simp [titleLike, ha.2.1]

theorem mergeInto_eraseId (a1 b1 a2 b2 : PromptScene)
    (ha : eraseId a1 = eraseId a2) (hb : eraseId b1 = eraseId b2) :
    eraseId (mergeInto a1 b1) = eraseId (mergeInto a2 b2) := by
  simp only [eraseId, Prod.mk.injEq] at ha hb ⊢
  simp only [mergeInto]
  exact ⟨ha.1, by rw [ha.2.1, hb.2.1], hb.2.2.1, hb.2.2.2⟩

theorem mergeLoopF_eraseId (f : Nat) :
    ∀ l1 l2 : List PromptScene, l1.map eraseId = l2.map eraseId →
      (mergeLoopF f l1).map eraseId = (mergeLoopF f l2).map eraseId := by
  induction f with
  | zero =>
    have e : ∀ l : List PromptScene, mergeLoopF 0 l = l := by
      intro l
      match l with
      | [] => rfl
      | [a] => rfl
      | a :: b :: rest => rfl
    intro l1 l2 h
    rw [e, e]
    exact h
  | succ f ih =>
    intro l1 l2 h
    cases l1 with
    | nil =>
      cases l2 with
      | nil => simp [mergeLoopF]
      | cons a2 t2 => simp at h
    | cons a1 t1 =>
      cases l2 with
      | nil => simp at h
      | cons a2 t2 =>
        simp only [List.map_cons, List.cons.injEq] at h
        obtain ⟨hhead, htail⟩ := h
        cases t1 with
        | nil =>
          cases t2 with
          | nil => simp [mergeLoopF, hhead]
          | cons b2 t2b => simp at htail
        | cons b1 t1b =>
          cases t2 with
          | nil => simp at htail
          | cons b2 t2b =>
            simp only [List.map_cons, List.cons.injEq] at htail
            obtain ⟨hb, ht⟩ := htail
            simp only [mergeLoopF]
            rw [titleLike_eraseId a1 a2 hhead]
            by_cases hc : titleLike a2 = true
            · rw [if_pos hc, if_pos hc]
              apply ih
              simp only [List.map_cons, List.cons.injEq]
              exact ⟨mergeInto_eraseId a1 b1 a2 b2 hhead hb, ht⟩
            · rw [if_neg hc, if_neg hc]
              simp only [List.map_cons, List.cons.injEq]
              refine ⟨hhead, ?_⟩
              apply ih
              simp only [List.map_cons, List.cons.injEq]
              exact ⟨hb, ht⟩

theorem mergeResult_eraseId (l1 l2 : List PromptScene)
    (h : l1.map eraseId = l2.map eraseId) :
    (mergeResult l1).map eraseId = (mergeResult l2).map eraseId := by
  have hlen : l1.length = l2.length := by simpa using congrArg List.length h
  have hm : (mergeLoop l1).map eraseId = (mergeLoop l2).map eraseId := by
    unfold mergeLoop
    rw [hlen]
    exact mergeLoopF_eraseId l2.length l1 l2 h
  have hmlen : (mergeLoop l1).length = (mergeLoop l2).length := by
    simpa using congrArg List.length hm
  simp only [mergeResult]
  by_cases hc : (mergeLoop l1).length > 0
  · rw [if_pos hc, if_pos (by omega)]
    exact hm
  · rw [if_neg hc, if_neg (by omega)]
    exact h

/-- Claim C10: the extractor is deterministic modulo the id field — for any
two id generators the outputs have equal length and agree pairwise on
`sceneNumber`, `description`, `shortLabel` and `source` (everything
`eraseId` keeps); only the randomly generated `id` may differ. -/
theorem c10_deterministic_modulo_id (g1 g2 : Nat → List Char) (text src : List Char) :
    (extractPromptsFromText g1 text src).map eraseId =
      (extractPromptsFromText g2 text src).map eraseId := by
  have hjson := jsonPass_eraseId g1 g2 text src
  have hlen : (jsonPass g1 text src).length = (jsonPass g2 text src).length := by
    simpa using congrArg List.length hjson
  simp only [extractPromptsFromText]
  by_cases hc : (jsonPass g1 text src).length > 0
  · rw [if_pos hc, if_pos (by omega)]
    exact hjson
  · rw [if_neg hc, if_neg (by omega)]
    exact mergeResult_eraseId _ _ (heuristicPass_eraseId g1 g2 text src)

end PromptFlow
